import Mathlib

/-!
Verification of the SlotHashes lookup code of the eisodos repository.

The two implementations under study are
`manual_binary_search` (programs/solana-program/src/processor.rs) and
`process_slot_hashes_bytes` (programs/solana-nostd-entrypoint/src/processor.rs),
together with the account-level processor wrappers around them.

Modelling conventions:
- A byte buffer is a `List Nat` (each element one byte).  The `usize`/`u64`
  machine width is 64 bits; unchecked Rust release arithmetic on offsets is
  modelled with an explicit `% 2 ^ 64`, and `checked_mul`/`checked_add` with
  `Option`-returning functions that compare against `2 ^ 64`.
- A Rust slice expression `data[a..b]` is modelled by `sliceRead`, which
  returns `none` (a panic) when `a > b` or `b > data.length`.
- Functions that can panic return `Option`; `none` means the call panics.
- The `while` loop of `manual_binary_search` and the loop inside the standard
  library's `binary_search_by` are embedded as fuel-indexed structural
  recursions.  Both loops run at most `high - low` iterations (the interval
  strictly shrinks each round), and the initial call supplies exactly
  `high - low = num_entries` fuel, so the embedding is exact; the theorem
  `mbsLoopF_fuel_congr` below proves that any fuel of at least
  `high - low` produces the same result.
-/

/-- `usize`/`u64` modulus: both are 64-bit on the Solana BPF target. -/
def USIZE : Nat := 2 ^ 64

/-- Little-endian value of a byte list (`u64::from_le_bytes` on 8 bytes). -/
def readLE (bs : List Nat) : Nat := bs.foldr (fun b acc => b + 256 * acc) 0

/-- The sub-list `data[off .. off+len)`. -/
def bytesAt (data : List Nat) (off len : Nat) : List Nat :=
  (data.take (off + len)).drop off

/-- `u64::from_le_bytes(data[off..off+8].try_into().unwrap())`. -/
def readU64At (data : List Nat) (off : Nat) : Nat := readLE (bytesAt data off 8)

/-- The `entry_count` prefix: little-endian u64 at offset 0. -/
def entryCount (data : List Nat) : Nat := readU64At data 0

/-- Slot value of entry `i`: little-endian u64 at offset `8 + i * 40`. -/
def slotAt (data : List Nat) (i : Nat) : Nat := readU64At data (8 + i * 40)

/-- Hash bytes of entry `i`: the 32 bytes at offset `8 + i * 40 + 8`. -/
def hashAt (data : List Nat) (i : Nat) : List Nat := bytesAt data (8 + i * 40 + 8) 32

/-- Rust slice indexing `data[start..stop]`: panics (`none`) unless
`start <= stop` and `stop <= data.len()`. -/
def sliceRead (data : List Nat) (start stop : Nat) : Option (List Nat) :=
  if start ≤ stop ∧ stop ≤ data.length then some ((data.take stop).drop start)
  else none

/-- `Result<usize, usize>` of `manual_binary_search`: `ok` is `Ok(index)`,
`err` is `Err(insertion_point)`. -/
inductive SearchResult where
  | ok (i : Nat)
  | err (p : Nat)
deriving DecidableEq

/-- The `while low < high` loop of `manual_binary_search`
(programs/solana-program/src/processor.rs, lines 70-85), fuel-indexed.
Offset arithmetic `entries_data_start + mid * SDK_ENTRY_SIZE` and
`entry_offset + 8` wraps modulo `2 ^ 64` (release-mode `usize` arithmetic);
the slice read `data[entry_offset..entry_offset + 8]` panics (`none`) when
the wrapped end lies before the start.  When the fuel is exhausted the loop
has already reached `low >= high` (fuel is always at least `high - low`, see
`mbsLoopF_fuel_congr`), so returning `Err(low)` there is the loop's own
exit result. -/
def mbsLoopF (data : List Nat) (target : Nat) : Nat → Nat → Nat → Option SearchResult
  | 0, low, _high => some (SearchResult.err low)
  | fuel + 1, low, high =>
    if low < high then
      let mid := low + (high - low) / 2
      let entryOffset := (8 + mid * 40) % USIZE
      let stop := (entryOffset + 8) % USIZE
      if stop > data.length then some (SearchResult.err low)
      else
        match sliceRead data entryOffset stop with
        | none => none
        | some bs =>
          if bs.length = 8 then
            let currentSlot := readLE bs
            if currentSlot = target then some (SearchResult.ok mid)
            else if currentSlot < target then mbsLoopF data target fuel low mid
            else mbsLoopF data target fuel (mid + 1) high
          else none
    else some (SearchResult.err low)

/-- `manual_binary_search` (programs/solana-program/src/processor.rs,
lines 59-88).  `none` models a panic. -/
def manual_binary_search (data : List Nat) (target : Nat) : Option SearchResult :=
  if data.length < 8 then some (SearchResult.err 0)
  else
    let numEntries := readU64At data 0
    mbsLoopF data target numEntries 0 numEntries

/-- One `(slot, hash)` record (`SlotHashEntry` in
programs/solana-nostd-entrypoint/src/processor.rs). -/
structure SlotHashEntry where
  slot : Nat
  hash : List Nat

/-- The loop of Rust `slice::binary_search_by` with the comparator
`|entry| entry.slot.cmp(&target_slot).reverse()`: probe `mid = left + (right - left) / 2`;
the reversed comparator is `Less` when `target < slot` (take `left = mid + 1`)
and `Greater` when `slot < target` (take `right = mid`).  Fuel-indexed like
`mbsLoopF`; all probes are in bounds, so no panic is possible here. -/
def bsbLoopF (entries : List SlotHashEntry) (target : Nat) : Nat → Nat → Nat → SearchResult
  | 0, left, _right => SearchResult.err left
  | fuel + 1, left, right =>
    if left < right then
      let mid := left + (right - left) / 2
      let eSlot := (entries.getD mid ⟨0, []⟩).slot
      if eSlot = target then SearchResult.ok mid
      else if target < eSlot then bsbLoopF entries target fuel (mid + 1) right
      else bsbLoopF entries target fuel left mid
    else SearchResult.err left

/-- `entries.binary_search_by(|entry| entry.slot.cmp(&target_slot).reverse())`. -/
def slice_binary_search_by (entries : List SlotHashEntry) (target : Nat) : SearchResult :=
  bsbLoopF entries target entries.length 0 entries.length

/-- `cast_slice::<u8, SlotHashEntry>(&data[8 .. 8 + n * 40])`: the decoded
entry table view of the buffer. -/
def decodeEntries (data : List Nat) (n : Nat) : List SlotHashEntry :=
  (List.range n).map fun i => ⟨readU64At data (8 + i * 40), hashAt data i⟩

/-- The `ProgramError` values this code can produce. -/
inductive ProgramError where
  | AccountDataTooSmall
  | ArithmeticOverflow
  | InvalidArgument
  | NotEnoughAccountKeys
  | IncorrectProgramId
deriving DecidableEq

/-- `Result<A, ProgramError>`. -/
inductive ProgResult (α : Type) where
  | ok (val : α)
  | err (e : ProgramError)
deriving DecidableEq

/-- `SlotHashOp` (programs/solana-nostd-entrypoint/src/processor.rs). -/
inductive SlotHashOp where
  | IsEmpty
  | GetHash (target : Nat)
  | GetPosition (target : Nat)

/-- `usize::checked_mul`. -/
def checked_mul (a b : Nat) : Option Nat :=
  if a * b < USIZE then some (a * b) else none

/-- `usize::checked_add`. -/
def checked_add (a b : Nat) : Option Nat :=
  if a + b < USIZE then some (a + b) else none

/-- `Result::ok()` on a `Result<usize, usize>` search result. -/
def toFound : SearchResult → Option Nat
  | SearchResult.ok i => some i
  | SearchResult.err _ => none

/-- `process_slot_hashes_bytes` (programs/solana-nostd-entrypoint/src/processor.rs,
lines 71-110): length-prefix check, overflow-checked computation of
`entries_data_end = 8 + num_entries * 40`, table-bounds check, then either the
`is_empty` probe or the reversed-comparator standard binary search. -/
def process_slot_hashes_bytes (data : List Nat) (operation : SlotHashOp) :
    ProgResult (Option Nat) :=
  if data.length < 8 then ProgResult.err ProgramError.AccountDataTooSmall
  else
    let numEntries := readU64At data 0
    match checked_mul numEntries 40 with
    | none => ProgResult.err ProgramError.ArithmeticOverflow
    | some prod =>
      match checked_add 8 prod with
      | none => ProgResult.err ProgramError.ArithmeticOverflow
      | some entriesEnd =>
        if data.length < entriesEnd then ProgResult.err ProgramError.AccountDataTooSmall
        else
          let entries := decodeEntries data numEntries
          match operation with
          | SlotHashOp.IsEmpty => ProgResult.ok none
          | SlotHashOp.GetHash target =>
            ProgResult.ok (toFound (slice_binary_search_by entries target))
          | SlotHashOp.GetPosition target =>
            ProgResult.ok (toFound (slice_binary_search_by entries target))

/-- Account view: pubkey plus data bytes.  Pubkeys are abstracted to `Nat`;
the claims never depend on the concrete value of the sysvar id, only on
equality with it. -/
structure AccountInfo where
  key : Nat
  data : List Nat

/-- Stand-in for the `SysvarS1otHashes...` pubkey; only compared for equality. -/
def SLOT_HASHES_ID : Nat := 1

/-- `process_slot_hashes_get_entry` (programs/solana-program/src/processor.rs,
lines 91-101): account presence check, sysvar-key check, then the
`data.len() < 8` check before reading `num_entries`. -/
def sp_process_slot_hashes_get_entry (accounts : List AccountInfo) : ProgResult Unit :=
  match accounts.head? with
  | none => ProgResult.err ProgramError.NotEnoughAccountKeys
  | some acc =>
    if acc.key ≠ SLOT_HASHES_ID then ProgResult.err ProgramError.IncorrectProgramId
    else if acc.data.length < 8 then ProgResult.err ProgramError.AccountDataTooSmall
    else ProgResult.ok ()

/-- `process_slot_hashes_get_hash_interpolated` (programs/solana-program/src/
processor.rs, lines 104-112): key-checked wrapper that runs
`manual_binary_search(&data, 0)` and discards the result.  `none` models the
wrapper panicking because the search panicked. -/
def sp_process_slot_hashes_get_hash_interpolated (accounts : List AccountInfo) :
    Option (ProgResult Unit) :=
  match accounts.head? with
  | none => some (ProgResult.err ProgramError.NotEnoughAccountKeys)
  | some acc =>
    if acc.key ≠ SLOT_HASHES_ID then some (ProgResult.err ProgramError.IncorrectProgramId)
    else
      match manual_binary_search acc.data 0 with
      | none => none
      | some _ => some (ProgResult.ok ())

/-- `process_slot_hashes_position_interpolated` (programs/solana-program/src/
processor.rs, lines 115-123): same body as the get-hash wrapper. -/
def sp_process_slot_hashes_position_interpolated (accounts : List AccountInfo) :
    Option (ProgResult Unit) :=
  match accounts.head? with
  | none => some (ProgResult.err ProgramError.NotEnoughAccountKeys)
  | some acc =>
    if acc.key ≠ SLOT_HASHES_ID then some (ProgResult.err ProgramError.IncorrectProgramId)
    else
      match manual_binary_search acc.data 0 with
      | none => none
      | some _ => some (ProgResult.ok ())

/-- `process_slot_hashes_get_hash_midpoint` (programs/solana-program/src/
processor.rs, lines 126-128): a direct call of the interpolated variant. -/
def sp_process_slot_hashes_get_hash_midpoint (accounts : List AccountInfo) :
    Option (ProgResult Unit) :=
  sp_process_slot_hashes_get_hash_interpolated accounts

/-- `process_slot_hashes_position_midpoint` (programs/solana-program/src/
processor.rs, lines 131-133): a direct call of the interpolated variant. -/
def sp_process_slot_hashes_position_midpoint (accounts : List AccountInfo) :
    Option (ProgResult Unit) :=
  sp_process_slot_hashes_position_interpolated accounts

/-- `process_slot_hashes_get_entry` (programs/solana-nostd-entrypoint/src/
processor.rs, lines 115-124): `get(0).filter(key match).ok_or(InvalidArgument)`,
then `process_slot_hashes_bytes(&data, IsEmpty).map(|_| ())`. -/
def nostd_process_slot_hashes_get_entry (accounts : List AccountInfo) : ProgResult Unit :=
  match accounts.head? with
  | none => ProgResult.err ProgramError.InvalidArgument
  | some acc =>
    if acc.key ≠ SLOT_HASHES_ID then ProgResult.err ProgramError.InvalidArgument
    else
      match process_slot_hashes_bytes acc.data SlotHashOp.IsEmpty with
      | ProgResult.ok _ => ProgResult.ok ()
      | ProgResult.err e => ProgResult.err e

/-- A well-formed SlotHashes buffer: it fits in the address space, holds the
full entry table its prefix declares, and its slots are strictly descending. -/
def ValidBuffer (data : List Nat) : Prop :=
  data.length < USIZE ∧
  8 + 40 * entryCount data ≤ data.length ∧
  ∀ j, j < entryCount data → ∀ i, i < j → slotAt data j < slotAt data i

instance (data : List Nat) : Decidable (ValidBuffer data) := by
  unfold ValidBuffer; infer_instance

/-- Number of entries whose slot is strictly greater than the target: the
insertion point of a descending table. -/
def insertionPoint (data : List Nat) (target : Nat) : Nat :=
  ((List.range (entryCount data)).filter fun i => decide (target < slotAt data i)).length

/-- `create_mock_slot_hashes_data` of the in-repo tests: length prefix followed
by `(slot, hash)` records. -/
def u64le (x : Nat) : List Nat :=
  [x % 256, x / 256 % 256, x / 256 ^ 2 % 256, x / 256 ^ 3 % 256,
   x / 256 ^ 4 % 256, x / 256 ^ 5 % 256, x / 256 ^ 6 % 256, x / 256 ^ 7 % 256]

/-- Build a mock buffer from `(slot, hash)` pairs, as the in-repo tests do. -/
def mock_slot_hashes_data (entries : List (Nat × List Nat)) : List Nat :=
  u64le entries.length ++ (entries.map fun e => u64le e.1 ++ e.2).flatten

/-- Two-entry valid buffer: slots 9 and 5. -/
def twoEntryData : List Nat :=
  mock_slot_hashes_data [(9, List.replicate 32 1), (5, List.replicate 32 2)]

/-- Truncated buffer: prefix says 2 entries, but only entry 0 and the slot
field of entry 1 are present (56 of the required 88 bytes). -/
def truncatedData : List Nat :=
  u64le 2 ++ u64le 9 ++ List.replicate 32 1 ++ u64le 7

/-- Buffer whose prefix declares `entry_count = 2 ^ 59`, so `40 * entry_count`
overflows `usize`. -/
def overflowCountData : List Nat := u64le (2 ^ 59)

/-- One-entry valid buffer: slot 9. -/
def oneEntryData : List Nat := mock_slot_hashes_data [(9, List.replicate 32 3)]

/-- Empty-table buffer: `entry_count = 0`, length 8. -/
def emptyTableData : List Nat := u64le 0

/-- Adversarial prefix: `entry_count = 922337203685477580`, chosen so that the
first probe `mid = 461168601842738790` gives `8 + mid * 40 = 2 ^ 64 - 8`; the
bounds guard `entry_offset + 8 > data.len()` wraps to `0 > 8` (false) and the
slice `data[entry_offset..entry_offset + 8]` panics. -/
def panicCountData : List Nat := u64le 922337203685477580

example : entryCount twoEntryData = 2 := by decide
example : slotAt twoEntryData 0 = 9 ∧ slotAt twoEntryData 1 = 5 := by decide
example : manual_binary_search twoEntryData 5 = some (SearchResult.ok 1) := by decide
example : manual_binary_search twoEntryData 7 = some (SearchResult.err 1) := by decide
example : process_slot_hashes_bytes twoEntryData (SlotHashOp.GetPosition 9) =
    ProgResult.ok (some 0) := by decide
example : manual_binary_search truncatedData 7 = some (SearchResult.ok 1) := by decide
example : manual_binary_search overflowCountData 0 = some (SearchResult.err 0) := by decide
example : process_slot_hashes_bytes overflowCountData SlotHashOp.IsEmpty =
    ProgResult.err ProgramError.ArithmeticOverflow := by decide
example : manual_binary_search panicCountData 0 = none := by decide
example : ValidBuffer twoEntryData := by decide

theorem mbsLoopF_stop (data : List Nat) (target : Nat) (fuel low high : Nat)
    (h : ¬ low < high) :
    mbsLoopF data target fuel low high = some (SearchResult.err low) := by
  cases fuel with
  | zero => rfl
  | succ fuel => simp [mbsLoopF, h]

theorem bsbLoopF_stop (entries : List SlotHashEntry) (target : Nat) (fuel left right : Nat)
    (h : ¬ left < right) :
    bsbLoopF entries target fuel left right = SearchResult.err left := by
  cases fuel with
  | zero => rfl
  | succ fuel => simp [bsbLoopF, h]

theorem bytesAt_length (data : List Nat) (off len : Nat) (h : off + len ≤ data.length) :
    (bytesAt data off len).length = len := by
  simp [bytesAt]
  omega

theorem mbsLoopF_step (data : List Nat) (target : Nat) (fuel low high : Nat)
    (hlt : low < high)
    (hwrap : 8 + (low + (high - low) / 2) * 40 + 8 < USIZE) :
    mbsLoopF data target (fuel + 1) low high =
      (if 8 + (low + (high - low) / 2) * 40 + 8 > data.length then
        some (SearchResult.err low)
      else if slotAt data (low + (high - low) / 2) = target then
        some (SearchResult.ok (low + (high - low) / 2))
      else if slotAt data (low + (high - low) / 2) < target then
        mbsLoopF data target fuel low (low + (high - low) / 2)
      else mbsLoopF data target fuel ((low + (high - low) / 2) + 1) high) := by
  have h1 : (8 + (low + (high - low) / 2) * 40) % USIZE
      = 8 + (low + (high - low) / 2) * 40 := Nat.mod_eq_of_lt (by omega)
  have h2 : (8 + (low + (high - low) / 2) * 40 + 8) % USIZE
      = 8 + (low + (high - low) / 2) * 40 + 8 := Nat.mod_eq_of_lt (by omega)
  simp only [mbsLoopF, if_pos hlt, h1, h2]
  by_cases hg : 8 + (low + (high - low) / 2) * 40 + 8 > data.length
  · simp only [if_pos hg]
  · simp only [if_neg hg]
    have hsr : sliceRead data (8 + (low + (high - low) / 2) * 40)
        (8 + (low + (high - low) / 2) * 40 + 8)
        = some (bytesAt data (8 + (low + (high - low) / 2) * 40) 8) := by
      simp only [sliceRead, bytesAt]
      rw [if_pos ⟨by omega, by omega⟩]
    rw [hsr]
    have hlen : (bytesAt data (8 + (low + (high - low) / 2) * 40) 8).length = 8 :=
      bytesAt_length data _ 8 (by omega)
    simp only [hlen, if_pos rfl]
    rfl

theorem mbsLoopF_fuel_congr (data : List Nat) (target : Nat) :
    ∀ f1 f2 low high, high - low ≤ f1 → high - low ≤ f2 →
      mbsLoopF data target f1 low high = mbsLoopF data target f2 low high := by
  intro f1
  induction f1 with
  | zero =>
    intro f2 low high h1 h2
    have h : ¬ low < high := by omega
    rw [mbsLoopF_stop data target 0 low high h, mbsLoopF_stop data target f2 low high h]
  | succ f1 ih =>
    intro f2 low high h1 h2
    by_cases hlt : low < high
    · cases f2 with
      | zero => omega
      | succ f2 =>
        simp only [mbsLoopF, if_pos hlt]
        by_cases hg : ((8 + (low + (high - low) / 2) * 40) % USIZE + 8) % USIZE > data.length
        · simp only [if_pos hg]
        · simp only [if_neg hg]
          cases hsr : sliceRead data ((8 + (low + (high - low) / 2) * 40) % USIZE)
              (((8 + (low + (high - low) / 2) * 40) % USIZE + 8) % USIZE) with
          | none => rfl
          | some bs =>
            by_cases hb : bs.length = 8
            · simp only [hb, if_pos rfl]
              by_cases he : readLE bs = target
              · simp only [if_pos he]
              · simp only [if_neg he]
                by_cases hc : readLE bs < target
                · simp only [if_pos hc]
                  exact ih f2 low (low + (high - low) / 2) (by omega) (by omega)
                · simp only [if_neg hc]
                  exact ih f2 (low + (high - low) / 2 + 1) high (by omega) (by omega)
            · simp only [if_neg hb]
    · rw [mbsLoopF_stop data target (f1 + 1) low high hlt,
        mbsLoopF_stop data target f2 low high hlt]

theorem slot_inj (data : List Nat) (hv : ValidBuffer data) {i j : Nat}
    (hi : i < entryCount data) (hj : j < entryCount data)
    (h : slotAt data i = slotAt data j) : i = j := by
  rcases Nat.lt_trichotomy i j with hlt | heq | hgt
  · have := hv.2.2 j hj i hlt; omega
  · exact heq
  · have := hv.2.2 i hi j hgt; omega

theorem mbsLoopF_sound (data : List Nat) (target : Nat) (hv : ValidBuffer data) :
    ∀ fuel low high, high ≤ entryCount data → low ≤ high → high - low ≤ fuel →
      (∀ i, i < low → target < slotAt data i) →
      (∀ i, high ≤ i → i < entryCount data → slotAt data i < target) →
      (∃ m, low ≤ m ∧ m < high ∧ slotAt data m = target ∧
        mbsLoopF data target fuel low high = some (SearchResult.ok m)) ∨
      (∃ p, low ≤ p ∧ p ≤ high ∧
        (∀ i, i < p → target < slotAt data i) ∧
        (∀ i, p ≤ i → i < entryCount data → slotAt data i < target) ∧
        mbsLoopF data target fuel low high = some (SearchResult.err p)) := by
  obtain ⟨hU, hlen, hdesc⟩ := hv
  intro fuel
  induction fuel with
  | zero =>
    intro low high hn hlh hf hpre hsuf
    right
    exact ⟨low, le_refl low, hlh, hpre, fun i hpi hin => hsuf i (by omega) hin, rfl⟩
  | succ fuel ih =>
    intro low high hn hlh hf hpre hsuf
    by_cases hlt : low < high
    · have hdq : (high - low) / 2 < high - low := Nat.div_lt_self (by omega) (by omega)
      have hmidlt : low + (high - low) / 2 < high := by omega
      have hmidn : low + (high - low) / 2 < entryCount data := by omega
      have hwrap : 8 + (low + (high - low) / 2) * 40 + 8 < USIZE := by
        have h1 : (low + (high - low) / 2) + 1 ≤ entryCount data := hmidn
        omega
      have hg : ¬ (8 + (low + (high - low) / 2) * 40 + 8 > data.length) := by
        have h1 : (low + (high - low) / 2) + 1 ≤ entryCount data := hmidn
        omega
      rw [mbsLoopF_step data target fuel low high hlt hwrap]
      simp only [if_neg hg]
      by_cases he : slotAt data (low + (high - low) / 2) = target
      · left
        exact ⟨low + (high - low) / 2, by omega, hmidlt, he, by simp only [if_pos he]⟩
      · simp only [if_neg he]
        by_cases hc : slotAt data (low + (high - low) / 2) < target
        · simp only [if_pos hc]
          have hsuf2 : ∀ i, low + (high - low) / 2 ≤ i → i < entryCount data →
              slotAt data i < target := by
            intro i hi hin
            rcases Nat.eq_or_lt_of_le hi with heq | hgt
            · exact heq ▸ hc
            · exact lt_trans (hdesc i hin _ hgt) hc
          rcases ih low (low + (high - low) / 2) (by omega) (by omega) (by omega) hpre hsuf2 with
            ⟨m, hm1, hm2, hm3, hm4⟩ | ⟨p, hp1, hp2, hp3, hp4, hp5⟩
          · exact Or.inl ⟨m, hm1, by omega, hm3, hm4⟩
          · exact Or.inr ⟨p, hp1, by omega, hp3, hp4, hp5⟩
        · simp only [if_neg hc]
          have hgt' : target < slotAt data (low + (high - low) / 2) := by omega
          have hpre2 : ∀ i, i < low + (high - low) / 2 + 1 → target < slotAt data i := by
            intro i hi
            rcases Nat.lt_or_ge i low with hil | hige
            · exact hpre i hil
            · rcases Nat.eq_or_lt_of_le (by omega : i ≤ low + (high - low) / 2) with heq | hlt2
              · rw [heq]; exact hgt'
              · exact lt_trans hgt' (hdesc _ hmidn i hlt2)
          rcases ih (low + (high - low) / 2 + 1) high hn (by omega) (by omega) hpre2 hsuf with
            ⟨m, hm1, hm2, hm3, hm4⟩ | ⟨p, hp1, hp2, hp3, hp4, hp5⟩
          · exact Or.inl ⟨m, by omega, hm2, hm3, hm4⟩
          · exact Or.inr ⟨p, by omega, hp2, hp3, hp4, hp5⟩
    · right
      exact ⟨low, le_refl low, by omega, hpre, fun i hpi hin => hsuf i (by omega) hin,
        mbsLoopF_stop data target (fuel + 1) low high hlt⟩

theorem decodeEntries_length (data : List Nat) (n : Nat) :
    (decodeEntries data n).length = n := by
  simp [decodeEntries]

theorem decodeEntries_getD_slot (data : List Nat) (n i : Nat) (h : i < n) :
    ((decodeEntries data n).getD i ⟨0, []⟩).slot = slotAt data i := by
  simp [decodeEntries, List.getD_eq_getElem?_getD, List.getElem?_map,
    List.getElem?_range, h]
  rfl

theorem mbsLoopF_eq_bsbLoopF (data : List Nat) (target : Nat)
    (hU : data.length < USIZE) (hlen : 8 + 40 * entryCount data ≤ data.length) :
    ∀ fuel low high, high ≤ entryCount data →
      mbsLoopF data target fuel low high =
        some (bsbLoopF (decodeEntries data (entryCount data)) target fuel low high) := by
  intro fuel
  induction fuel with
  | zero => intro low high hn; rfl
  | succ fuel ih =>
    intro low high hn
    by_cases hlt : low < high
    · have hdq : (high - low) / 2 < high - low := Nat.div_lt_self (by omega) (by omega)
      have hmidn : low + (high - low) / 2 < entryCount data := by omega
      have hwrap : 8 + (low + (high - low) / 2) * 40 + 8 < USIZE := by
        have h1 : (low + (high - low) / 2) + 1 ≤ entryCount data := hmidn
        omega
      have hg : ¬ (8 + (low + (high - low) / 2) * 40 + 8 > data.length) := by
        have h1 : (low + (high - low) / 2) + 1 ≤ entryCount data := hmidn
        omega
      rw [mbsLoopF_step data target fuel low high hlt hwrap]
      simp only [if_neg hg, bsbLoopF, if_pos hlt]
      rw [decodeEntries_getD_slot data (entryCount data) _ hmidn]
      by_cases he : slotAt data (low + (high - low) / 2) = target
      · simp only [if_pos he]
      · simp only [if_neg he]
        by_cases hc : slotAt data (low + (high - low) / 2) < target
        · have hnc : ¬ target < slotAt data (low + (high - low) / 2) := by omega
          simp only [if_pos hc, if_neg hnc]
          exact ih low (low + (high - low) / 2) (by omega)
        · have hnc : target < slotAt data (low + (high - low) / 2) := by omega
          simp only [if_neg hc, if_pos hnc]
          exact ih (low + (high - low) / 2 + 1) high hn
    · rw [mbsLoopF_stop data target (fuel + 1) low high hlt,
        bsbLoopF_stop _ target (fuel + 1) low high hlt]

theorem manual_binary_search_eq_loop (data : List Nat) (target : Nat)
    (hlen8 : 8 ≤ data.length) :
    manual_binary_search data target =
      mbsLoopF data target (entryCount data) 0 (entryCount data) := by
  unfold manual_binary_search
  rw [if_neg (by omega)]
  rfl

theorem process_search_eq (data : List Nat) (target : Nat) (hv : ValidBuffer data) :
    process_slot_hashes_bytes data (SlotHashOp.GetPosition target) =
      ProgResult.ok (toFound (bsbLoopF (decodeEntries data (entryCount data)) target
        (entryCount data) 0 (entryCount data))) ∧
    process_slot_hashes_bytes data (SlotHashOp.GetHash target) =
      ProgResult.ok (toFound (bsbLoopF (decodeEntries data (entryCount data)) target
        (entryCount data) 0 (entryCount data))) := by
  obtain ⟨hU, hlen, -⟩ := hv
  have hec : entryCount data = readU64At data 0 := rfl
  constructor <;>
  · unfold process_slot_hashes_bytes
    rw [if_neg (by omega)]
    have hmul : checked_mul (readU64At data 0) 40 = some (readU64At data 0 * 40) := by
      unfold checked_mul
      rw [if_pos (by omega)]
    have hadd : checked_add 8 (readU64At data 0 * 40) = some (8 + readU64At data 0 * 40) := by
      unfold checked_add
      rw [if_pos (by omega)]
    simp only [hmul, hadd]
    rw [if_neg (by omega)]
    unfold slice_binary_search_by
    rw [decodeEntries_length]
    rfl

theorem searches_sound (data : List Nat) (target : Nat) (hv : ValidBuffer data) :
    (∃ m, m < entryCount data ∧ slotAt data m = target ∧
      manual_binary_search data target = some (SearchResult.ok m) ∧
      process_slot_hashes_bytes data (SlotHashOp.GetPosition target) = ProgResult.ok (some m) ∧
      process_slot_hashes_bytes data (SlotHashOp.GetHash target) = ProgResult.ok (some m)) ∨
    (∃ p, p ≤ entryCount data ∧
      (∀ i, i < p → target < slotAt data i) ∧
      (∀ i, p ≤ i → i < entryCount data → slotAt data i < target) ∧
      manual_binary_search data target = some (SearchResult.err p) ∧
      process_slot_hashes_bytes data (SlotHashOp.GetPosition target) = ProgResult.ok none ∧
      process_slot_hashes_bytes data (SlotHashOp.GetHash target) = ProgResult.ok none) := by
  have hlen8 : 8 ≤ data.length := by have := hv.2.1; omega
  have hml := manual_binary_search_eq_loop data target hlen8
  have hagree := mbsLoopF_eq_bsbLoopF data target hv.1 hv.2.1 (entryCount data) 0
    (entryCount data) (le_refl _)
  have hproc := process_search_eq data target hv
  rcases mbsLoopF_sound data target hv (entryCount data) 0 (entryCount data)
      (le_refl _) (Nat.zero_le _) (by omega)
      (fun i hi => absurd hi (Nat.not_lt_zero i))
      (fun i hi hin => absurd hin (by omega)) with
    ⟨m, -, hm2, hm3, hm4⟩ | ⟨p, -, hp2, hp3, hp4, hp5⟩
  · left
    refine ⟨m, hm2, hm3, ?_, ?_, ?_⟩
    · rw [hml, hm4]
    · rw [hproc.1]
      rw [hm4] at hagree
      have hb : bsbLoopF (decodeEntries data (entryCount data)) target (entryCount data) 0
          (entryCount data) = SearchResult.ok m := by
        injection hagree.symm with h
      rw [hb]
      rfl
    · rw [hproc.2]
      rw [hm4] at hagree
      have hb : bsbLoopF (decodeEntries data (entryCount data)) target (entryCount data) 0
          (entryCount data) = SearchResult.ok m := by
        injection hagree.symm with h
      rw [hb]
      rfl
  · right
    refine ⟨p, hp2, hp3, hp4, ?_, ?_, ?_⟩
    · rw [hml, hp5]
    · rw [hproc.1]
      rw [hp5] at hagree
      have hb : bsbLoopF (decodeEntries data (entryCount data)) target (entryCount data) 0
          (entryCount data) = SearchResult.err p := by
        injection hagree.symm with h
      rw [hb]
      rfl
    · rw [hproc.2]
      rw [hp5] at hagree
      have hb : bsbLoopF (decodeEntries data (entryCount data)) target (entryCount data) 0
          (entryCount data) = SearchResult.err p := by
        injection hagree.symm with h
      rw [hb]
      rfl

theorem range_filter_lt_length : ∀ n p : Nat, p ≤ n →
    ((List.range n).filter fun i => decide (i < p)).length = p := by
  intro n
  induction n with
  | zero => intro p hp; interval_cases p; rfl
  | succ n ih =>
    intro p hp
    rw [List.range_succ, List.filter_append, List.length_append]
    rcases Nat.lt_or_ge p (n + 1) with hpn | hpn
    · have hpn' : p ≤ n := by omega
      rw [ih p hpn']
      have hnp : ¬ (n < p) := by omega
      simp [hnp]
    · have hpe : p = n + 1 := by omega
      subst hpe
      have hall : ∀ a ∈ List.range n, (fun i => decide (i < n + 1)) a = true := by
        intro a ha
        rw [List.mem_range] at ha
        simp
        omega
      rw [List.filter_eq_self.mpr hall, List.length_range]
      simp

theorem insertionPoint_eq (data : List Nat) (target p : Nat)
    (hp : p ≤ entryCount data)
    (h1 : ∀ i, i < p → target < slotAt data i)
    (h2 : ∀ i, p ≤ i → i < entryCount data → slotAt data i < target) :
    insertionPoint data target = p := by
  unfold insertionPoint
  have hcong : ∀ i ∈ List.range (entryCount data),
      (decide (target < slotAt data i)) = (decide (i < p)) := by
    intro i hi
    rw [List.mem_range] at hi
    by_cases hip : i < p
    · simp [hip, h1 i hip]
    · have := h2 i (by omega) hi
      simp [hip]
      omega
  rw [List.filter_congr hcong]
  exact range_filter_lt_length (entryCount data) p hp

theorem search_found (data : List Nat) (target i : Nat) (hv : ValidBuffer data)
    (hi : i < entryCount data) (hs : slotAt data i = target) :
    manual_binary_search data target = some (SearchResult.ok i) ∧
    process_slot_hashes_bytes data (SlotHashOp.GetPosition target) = ProgResult.ok (some i) ∧
    process_slot_hashes_bytes data (SlotHashOp.GetHash target) = ProgResult.ok (some i) := by
  rcases searches_sound data target hv with
    ⟨m, hm1, hm2, h1, h2, h3⟩ | ⟨p, hp1, hp2, hp3, h1, h2, h3⟩
  · have hmi : m = i := slot_inj data hv hm1 hi (by rw [hm2, hs])
    subst hmi
    exact ⟨h1, h2, h3⟩
  · exfalso
    by_cases hip : i < p
    · have := hp2 i hip; omega
    · have := hp3 i (by omega) hi; omega

theorem search_not_found (data : List Nat) (target : Nat) (hv : ValidBuffer data)
    (hnone : ∀ i, i < entryCount data → slotAt data i ≠ target) :
    manual_binary_search data target = some (SearchResult.err (insertionPoint data target)) ∧
    process_slot_hashes_bytes data (SlotHashOp.GetPosition target) = ProgResult.ok none ∧
    process_slot_hashes_bytes data (SlotHashOp.GetHash target) = ProgResult.ok none := by
  rcases searches_sound data target hv with
    ⟨m, hm1, hm2, h1, h2, h3⟩ | ⟨p, hp1, hp2, hp3, h1, h2, h3⟩
  · exact absurd hm2 (hnone m hm1)
  · rw [insertionPoint_eq data target p hp1 hp2 hp3]
    exact ⟨h1, h2, h3⟩

/-- C1: on a buffer whose prefix declares `N` strictly descending 40-byte
entries and whose length is at least `8 + 40 * N` (and fits in the address
space, as every Rust slice does), `manual_binary_search` returns `Ok(i)` for
the unique index `i` with `entry[i].slot == target_slot` when such an index
exists, and otherwise returns `Err(p)` where `p` is the number of entries
whose slot is strictly greater than `target_slot`. -/
theorem C1_manual_binary_search_correct (data : List Nat) (target : Nat)
    (hv : ValidBuffer data) :
    (∀ i, i < entryCount data → slotAt data i = target →
      manual_binary_search data target = some (SearchResult.ok i)) ∧
    ((∀ i, i < entryCount data → slotAt data i ≠ target) →
      manual_binary_search data target =
        some (SearchResult.err (insertionPoint data target))) := by
  constructor
  · intro i hi hs
    exact (search_found data target i hv hi hs).1
  · intro hn
    exact (search_not_found data target hv hn).1

/-- C1 witness: searching the two-entry buffer for slot 5 finds index 1. -/
theorem C1_witness :
    manual_binary_search twoEntryData 5 = some (SearchResult.ok 1) :=
  (C1_manual_binary_search_correct twoEntryData 5 (by decide)).1 1 (by decide) (by decide)

/-- C2: on every valid descending-sorted buffer the two in-repo search
implementations agree (`Ok(i)` matches `Ok(Some(i))`, `Err(_)` matches
`Ok(None)`), and the interpolated and midpoint processor entry points of the
solana-program variant return identical results on every input. -/
theorem C2_search_implementations_agree (data : List Nat) (target : Nat)
    (hv : ValidBuffer data) :
    (∀ i, manual_binary_search data target = some (SearchResult.ok i) ↔
      process_slot_hashes_bytes data (SlotHashOp.GetPosition target) =
        ProgResult.ok (some i)) ∧
    ((∃ p, manual_binary_search data target = some (SearchResult.err p)) ↔
      process_slot_hashes_bytes data (SlotHashOp.GetPosition target) =
        ProgResult.ok none) ∧
    (∀ accounts,
      sp_process_slot_hashes_get_hash_midpoint accounts =
        sp_process_slot_hashes_get_hash_interpolated accounts ∧
      sp_process_slot_hashes_position_midpoint accounts =
        sp_process_slot_hashes_position_interpolated accounts) := by
  refine ⟨?_, ?_, fun accounts => ⟨rfl, rfl⟩⟩
  · intro i
    rcases searches_sound data target hv with
      ⟨m, hm1, hm2, h1, h2, h3⟩ | ⟨p, hp1, hp2, hp3, h1, h2, h3⟩
    · rw [h1, h2]
      simp
    · rw [h1, h2]
      simp
  · rcases searches_sound data target hv with
      ⟨m, hm1, hm2, h1, h2, h3⟩ | ⟨p, hp1, hp2, hp3, h1, h2, h3⟩
    · rw [h1, h2]
      simp
    · rw [h1, h2]
      simp

/-- C2 witness: on the two-entry buffer with target 9, the manual search
finding index 0 coincides with the bytemuck search returning `Some 0`. -/
theorem C2_witness :
    manual_binary_search twoEntryData 9 = some (SearchResult.ok 0) ↔
      process_slot_hashes_bytes twoEntryData (SlotHashOp.GetPosition 9) =
        ProgResult.ok (some 0) :=
  (C2_search_implementations_agree twoEntryData 9 (by decide)).1 0

/-- C3 counterexample, refuting the claim that `manual_binary_search` fails
for every target on a truncated buffer: `truncatedData` declares 2 entries
but holds only 56 of the required 88 bytes, and `manual_binary_search`
returns the found result `Ok(1)` for target 7 instead of failing. -/
theorem C3_counterexample :
    8 ≤ truncatedData.length ∧
    truncatedData.length < 8 + 40 * entryCount truncatedData ∧
    manual_binary_search truncatedData 7 = some (SearchResult.ok 1) := by
  decide

/-- C3 (amended): on a truncated buffer (length at least 8 but below
`8 + 40 * entry_count`, the latter not overflowing `usize`) every
`process_slot_hashes_bytes` operation fails with `AccountDataTooSmall`;
`manual_binary_search` gives no such guarantee: its `Result<usize, usize>`
type has no error payload, and on a truncated buffer it can even report a
found index. -/
theorem C3_truncated_process_fails (data : List Nat)
    (h8 : 8 ≤ data.length)
    (hnov : 8 + 40 * entryCount data < USIZE)
    (htr : data.length < 8 + 40 * entryCount data) :
    ∀ operation, process_slot_hashes_bytes data operation =
      ProgResult.err ProgramError.AccountDataTooSmall := by
  intro operation
  have hec : entryCount data = readU64At data 0 := rfl
  unfold process_slot_hashes_bytes
  rw [if_neg (by omega)]
  have hmul : checked_mul (readU64At data 0) 40 = some (readU64At data 0 * 40) := by
    unfold checked_mul
    rw [if_pos (by omega)]
  have hadd : checked_add 8 (readU64At data 0 * 40) = some (8 + readU64At data 0 * 40) := by
    unfold checked_add
    rw [if_pos (by omega)]
  simp only [hmul, hadd]
  rw [if_pos (by omega)]

/-- C3 witness: on the truncated buffer the bytemuck reader fails with
`AccountDataTooSmall`. -/
theorem C3_witness :
    process_slot_hashes_bytes truncatedData SlotHashOp.IsEmpty =
      ProgResult.err ProgramError.AccountDataTooSmall :=
  C3_truncated_process_fails truncatedData (by decide) (by decide) (by decide)
    SlotHashOp.IsEmpty

/-- C4: round-trip: searching a valid buffer for the slot stored at index `i`
finds exactly index `i`, in both implementations. -/
theorem C4_round_trip (data : List Nat) (hv : ValidBuffer data) :
    ∀ i, i < entryCount data →
      manual_binary_search data (slotAt data i) = some (SearchResult.ok i) ∧
      process_slot_hashes_bytes data (SlotHashOp.GetPosition (slotAt data i)) =
        ProgResult.ok (some i) := by
  intro i hi
  exact ⟨(search_found data (slotAt data i) i hv hi rfl).1,
    (search_found data (slotAt data i) i hv hi rfl).2.1⟩

/-- C4 witness: round-trip at index 1 of the two-entry buffer. -/
theorem C4_witness :
    manual_binary_search twoEntryData (slotAt twoEntryData 1) =
      some (SearchResult.ok 1) :=
  (C4_round_trip twoEntryData (by decide) 1 (by decide)).1

/-- C5 counterexample, refuting the claim that `manual_binary_search` returns
an `ArithmeticOverflow` error when `entry_count * 40` overflows: on a buffer
declaring `2 ^ 59` entries the bytemuck reader fails with
`ArithmeticOverflow`, but `manual_binary_search` just returns the plain
insertion-point result `Err(0)` (its return type carries no error at all). -/
theorem C5_counterexample :
    8 ≤ overflowCountData.length ∧
    USIZE ≤ entryCount overflowCountData * 40 ∧
    process_slot_hashes_bytes overflowCountData (SlotHashOp.GetPosition 0) =
      ProgResult.err ProgramError.ArithmeticOverflow ∧
    manual_binary_search overflowCountData 0 = some (SearchResult.err 0) := by
  decide

/-- C5 (amended): `process_slot_hashes_bytes` computes
`entries_end = 8 + entry_count * 40` with overflow-checked arithmetic and
fails with `ArithmeticOverflow` whenever the multiply or the add overflows
`usize`; `manual_binary_search` performs no overflow-checked arithmetic and
returns no such error. -/
theorem C5_overflow_process_fails (data : List Nat)
    (h8 : 8 ≤ data.length)
    (hov : USIZE ≤ entryCount data * 40 ∨ USIZE ≤ 8 + entryCount data * 40) :
    ∀ operation, process_slot_hashes_bytes data operation =
      ProgResult.err ProgramError.ArithmeticOverflow := by
  intro operation
  have hec : entryCount data = readU64At data 0 := rfl
  unfold process_slot_hashes_bytes
  rw [if_neg (by omega)]
  by_cases hm : readU64At data 0 * 40 < USIZE
  · have hmul : checked_mul (readU64At data 0) 40 = some (readU64At data 0 * 40) := by
      unfold checked_mul
      rw [if_pos hm]
    have hadd : checked_add 8 (readU64At data 0 * 40) = none := by
      unfold checked_add
      rw [if_neg (by omega)]
    simp only [hmul, hadd]
  · have hmul : checked_mul (readU64At data 0) 40 = none := by
      unfold checked_mul
      rw [if_neg hm]
    simp only [hmul]

/-- C5 witness: the bytemuck reader fails with `ArithmeticOverflow` on the
buffer declaring `2 ^ 59` entries. -/
theorem C5_witness :
    process_slot_hashes_bytes overflowCountData SlotHashOp.IsEmpty =
      ProgResult.err ProgramError.ArithmeticOverflow :=
  C5_overflow_process_fails overflowCountData (by decide) (Or.inl (by decide))
    SlotHashOp.IsEmpty

/-- C6 counterexample, refuting the claim that `manual_binary_search` fails
with a BufferTooSmall error rather than reporting not-found when the slice is
shorter than 8 bytes: on the empty slice it returns `Err(0)`, exactly the
same not-found value it returns for a genuine miss (target 11) on the valid
one-entry buffer; its `Result<usize, usize>` type carries no error variant. -/
theorem C6_counterexample :
    ([] : List Nat).length < 8 ∧
    manual_binary_search [] 11 = some (SearchResult.err 0) ∧
    ValidBuffer oneEntryData ∧
    manual_binary_search oneEntryData 11 = some (SearchResult.err 0) := by
  decide

/-- C6 (amended): on a slice shorter than 8 bytes `process_slot_hashes_bytes`
and the solana-program `process_slot_hashes_get_entry` fail with
`AccountDataTooSmall`, while `manual_binary_search` returns `Err(0)` - the
not-found encoding with insertion point 0, indistinguishable from a genuine
miss. -/
theorem C6_short_buffer (data : List Nat) (h : data.length < 8) :
    (∀ operation, process_slot_hashes_bytes data operation =
      ProgResult.err ProgramError.AccountDataTooSmall) ∧
    sp_process_slot_hashes_get_entry [⟨SLOT_HASHES_ID, data⟩] =
      ProgResult.err ProgramError.AccountDataTooSmall ∧
    ∀ target, manual_binary_search data target = some (SearchResult.err 0) := by
  refine ⟨?_, ?_, ?_⟩
  · intro operation
    unfold process_slot_hashes_bytes
    rw [if_pos h]
  · show (if SLOT_HASHES_ID ≠ SLOT_HASHES_ID then
        ProgResult.err ProgramError.IncorrectProgramId
      else if data.length < 8 then ProgResult.err ProgramError.AccountDataTooSmall
      else ProgResult.ok ()) = ProgResult.err ProgramError.AccountDataTooSmall
    rw [if_neg (by omega), if_pos h]
  · intro target
    unfold manual_binary_search
    rw [if_pos h]

/-- C6 witness: the checked reader and the get-entry processor fail on the
empty slice, and the manual search returns `Err(0)` there. -/
theorem C6_witness :
    process_slot_hashes_bytes [] SlotHashOp.IsEmpty =
      ProgResult.err ProgramError.AccountDataTooSmall :=
  (C6_short_buffer [] (by decide)).1 SlotHashOp.IsEmpty

/-- C7: on a valid non-empty buffer, a target strictly above `entry[0].slot`
or strictly below `entry[entry_count - 1].slot` is reported absent by both
implementations; the manual search's insertion point is 0 for a too-large
target and `entry_count` for a too-small one. -/
theorem C7_out_of_range (data : List Nat) (target : Nat) (hv : ValidBuffer data)
    (hne : entryCount data ≠ 0)
    (hout : slotAt data 0 < target ∨ target < slotAt data (entryCount data - 1)) :
    manual_binary_search data target =
      some (SearchResult.err
        (if slotAt data 0 < target then 0 else entryCount data)) ∧
    process_slot_hashes_bytes data (SlotHashOp.GetPosition target) =
      ProgResult.ok none ∧
    process_slot_hashes_bytes data (SlotHashOp.GetHash target) =
      ProgResult.ok none := by
  rcases hout with hbig | hsmall
  · have hall : ∀ i, i < entryCount data → slotAt data i < target := by
      intro i hi
      rcases Nat.eq_zero_or_pos i with h0 | hpos
      · subst h0; exact hbig
      · exact lt_trans (hv.2.2 i hi 0 hpos) hbig
    have hnone : ∀ i, i < entryCount data → slotAt data i ≠ target := by
      intro i hi
      have := hall i hi
      omega
    have hip : insertionPoint data target = 0 :=
      insertionPoint_eq data target 0 (Nat.zero_le _)
        (fun i hi => absurd hi (Nat.not_lt_zero i))
        (fun i _ hi => hall i hi)
    obtain ⟨h1, h2, h3⟩ := search_not_found data target hv hnone
    rw [if_pos hbig]
    rw [hip] at h1
    exact ⟨h1, h2, h3⟩
  · have hall : ∀ i, i < entryCount data → target < slotAt data i := by
      intro i hi
      rcases Nat.lt_or_ge i (entryCount data - 1) with hlt | hge
      · exact lt_trans hsmall (hv.2.2 (entryCount data - 1) (by omega) i hlt)
      · have hie : i = entryCount data - 1 := by omega
        rw [hie]
        exact hsmall
    have hnone : ∀ i, i < entryCount data → slotAt data i ≠ target := by
      intro i hi
      have := hall i hi
      omega
    have hip : insertionPoint data target = entryCount data :=
      insertionPoint_eq data target (entryCount data) (le_refl _)
        (fun i hi => hall i hi)
        (fun i hpi hi => by omega)
    obtain ⟨h1, h2, h3⟩ := search_not_found data target hv hnone
    have hnb : ¬ slotAt data 0 < target := by
      have := hall 0 (by omega)
      omega
    rw [if_neg hnb]
    rw [hip] at h1
    exact ⟨h1, h2, h3⟩

/-- C7 witness: target 11 is above `entry[0].slot = 9` on the two-entry
buffer; both implementations report absence. -/
theorem C7_witness :
    manual_binary_search twoEntryData 11 =
      some (SearchResult.err
        (if slotAt twoEntryData 0 < 11 then 0 else entryCount twoEntryData)) :=
  (C7_out_of_range twoEntryData 11 (by decide) (by decide) (Or.inl (by decide))).1

/-- C8: a buffer with `entry_count == 0` and length at least 8 makes every
checked accessor return an immediate absence without failing or panicking:
the manual search returns `Err(0)` without entering the loop, the bytemuck
search operations return `Ok(None)`, and both get-entry processors succeed. -/
theorem C8_empty_table (data : List Nat) (h8 : 8 ≤ data.length)
    (h0 : entryCount data = 0) :
    (∀ target, manual_binary_search data target = some (SearchResult.err 0)) ∧
    (∀ target,
      process_slot_hashes_bytes data (SlotHashOp.GetPosition target) =
        ProgResult.ok none ∧
      process_slot_hashes_bytes data (SlotHashOp.GetHash target) =
        ProgResult.ok none) ∧
    process_slot_hashes_bytes data SlotHashOp.IsEmpty = ProgResult.ok none ∧
    sp_process_slot_hashes_get_entry [⟨SLOT_HASHES_ID, data⟩] = ProgResult.ok () ∧
    nostd_process_slot_hashes_get_entry [⟨SLOT_HASHES_ID, data⟩] = ProgResult.ok () := by
  have hec : readU64At data 0 = 0 := h0
  have hproc : ∀ operation, process_slot_hashes_bytes data operation =
      match operation with
      | SlotHashOp.IsEmpty => ProgResult.ok none
      | SlotHashOp.GetHash target =>
        ProgResult.ok (toFound (slice_binary_search_by (decodeEntries data 0) target))
      | SlotHashOp.GetPosition target =>
        ProgResult.ok (toFound (slice_binary_search_by (decodeEntries data 0) target)) := by
    intro operation
    unfold process_slot_hashes_bytes
    rw [if_neg (by omega)]
    have hmul : checked_mul 0 40 = some 0 := by decide
    have hadd : checked_add 8 0 = some 8 := by decide
    simp only [hec, hmul, hadd]
    rw [if_neg (by omega)]
  refine ⟨?_, ?_, ?_, ?_, ?_⟩
  · intro target
    unfold manual_binary_search
    rw [if_neg (by omega)]
    simp only [hec]
    rfl
  · intro target
    exact ⟨hproc (SlotHashOp.GetPosition target), hproc (SlotHashOp.GetHash target)⟩
  · exact hproc SlotHashOp.IsEmpty
  · show (if SLOT_HASHES_ID ≠ SLOT_HASHES_ID then
        ProgResult.err ProgramError.IncorrectProgramId
      else if data.length < 8 then ProgResult.err ProgramError.AccountDataTooSmall
      else ProgResult.ok ()) = ProgResult.ok ()
    rw [if_neg (by omega), if_neg (by omega)]
  · show (if SLOT_HASHES_ID ≠ SLOT_HASHES_ID then
        ProgResult.err ProgramError.InvalidArgument
      else
        match process_slot_hashes_bytes data SlotHashOp.IsEmpty with
        | ProgResult.ok _ => ProgResult.ok ()
        | ProgResult.err e => ProgResult.err e) = ProgResult.ok ()
    rw [if_neg (by omega), hproc SlotHashOp.IsEmpty]

/-- C8 witness: all accessors on the concrete empty-table buffer. -/
theorem C8_witness :
    manual_binary_search emptyTableData 7 = some (SearchResult.err 0) :=
  (C8_empty_table emptyTableData (by decide) (by decide)).1 7

theorem mbsLoopF_no_panic (data : List Nat) (target : Nat)
    (h : 8 + 40 * entryCount data < USIZE) :
    ∀ fuel low high, high ≤ entryCount data →
      ∃ r, mbsLoopF data target fuel low high = some r := by
  intro fuel
  induction fuel with
  | zero => intro low high hn; exact ⟨SearchResult.err low, rfl⟩
  | succ fuel ih =>
    intro low high hn
    by_cases hlt : low < high
    · have hdq : (high - low) / 2 < high - low := Nat.div_lt_self (by omega) (by omega)
      have hmidn : low + (high - low) / 2 < entryCount data := by omega
      have hwrap : 8 + (low + (high - low) / 2) * 40 + 8 < USIZE := by
        have h1 : (low + (high - low) / 2) + 1 ≤ entryCount data := hmidn
        omega
      rw [mbsLoopF_step data target fuel low high hlt hwrap]
      by_cases hg : 8 + (low + (high - low) / 2) * 40 + 8 > data.length
      · exact ⟨SearchResult.err low, by rw [if_pos hg]⟩
      · rw [if_neg hg]
        by_cases he : slotAt data (low + (high - low) / 2) = target
        · exact ⟨SearchResult.ok (low + (high - low) / 2), by rw [if_pos he]⟩
        · rw [if_neg he]
          by_cases hc : slotAt data (low + (high - low) / 2) < target
          · rw [if_pos hc]
            exact ih low (low + (high - low) / 2) (by omega)
          · rw [if_neg hc]
            exact ih (low + (high - low) / 2 + 1) high hn
    · exact ⟨SearchResult.err low, mbsLoopF_stop data target (fuel + 1) low high hlt⟩

/-- C9 counterexample, refuting totality of `manual_binary_search` on
arbitrary input: an 8-byte buffer whose declared `entry_count` is
922337203685477580 makes the first probe compute
`entry_offset = 8 + mid * 40 = 2 ^ 64 - 8`, so the bounds guard
`entry_offset + 8 > data.len()` wraps to `0 > 8` (false) and the slice
expression `data[entry_offset..entry_offset + 8]` panics. -/
theorem C9_counterexample :
    8 ≤ panicCountData.length ∧
    manual_binary_search panicCountData 0 = none := by
  decide

/-- C9 (amended): `manual_binary_search` returns a value without panicking on
every input whose declared `entry_count` keeps the offset arithmetic
`8 + 40 * entry_count` inside `usize` (in particular on every buffer that
really holds its declared table); adversarial counts whose probe offsets wrap
the address space can make it panic. -/
theorem C9_no_panic (data : List Nat) (target : Nat)
    (h : 8 + 40 * entryCount data < USIZE) :
    ∃ r, manual_binary_search data target = some r := by
  by_cases h8 : data.length < 8
  · refine ⟨SearchResult.err 0, ?_⟩
    unfold manual_binary_search
    rw [if_pos h8]
  · obtain ⟨r, hr⟩ :=
      mbsLoopF_no_panic data target h (entryCount data) 0 (entryCount data) (le_refl _)
    refine ⟨r, ?_⟩
    rw [manual_binary_search_eq_loop data target (by omega)]
    exact hr

/-- C9 witness: the manual search returns a value on the two-entry buffer. -/
theorem C9_witness :
    ∃ r, manual_binary_search twoEntryData 3 = some r :=
  C9_no_panic twoEntryData 3 (by decide)

/-- C10: unconditional termination of the search loop of
`manual_binary_search`: on every buffer (sorted or not) and every target the
loop's result is already determined after `high - low` iterations, because
`mid` satisfies `low <= mid < high` and every non-returning branch strictly
shrinks the interval; hence any fuel of at least `high - low` - in
particular the `num_entries` supplied by `manual_binary_search` - yields the
same result. -/
theorem C10_loop_terminates (data : List Nat) (target : Nat)
    (fuel low high : Nat) (h : high - low ≤ fuel) :
    mbsLoopF data target fuel low high =
      mbsLoopF data target (high - low) low high :=
  mbsLoopF_fuel_congr data target fuel (high - low) low high h (le_refl _)

/-- C10 witness: surplus fuel does not change the loop's result on the
two-entry buffer. -/
theorem C10_witness :
    mbsLoopF twoEntryData 5 99 0 2 = mbsLoopF twoEntryData 5 (2 - 0) 0 2 :=
  C10_loop_terminates twoEntryData 5 99 0 2 (by decide)
